import Mathlib

/-! firebirdsql, attic generator: `msgs.c` and `errmsgs.c`

A shallow embedding of the two C sources of the error-message generator.

* `Msgs.make_isc_code` embeds `make_isc_code` of `attic/msgs.c`, statement by statement.
  C objects are represented by their mathematical value in `Int`; every conversion to a
  narrower or wider C type is an explicit reduction modulo a power of two.
* `Errmsgs.main` embeds `main` of `attic/errmsgs.c`; the stream is the text written so far.
* `Errmsgs.run_main` follows the same statements with the results of the library calls:
  a failed `fopen` and a device that refuses characters.
-/

set_option linter.unusedVariables false

namespace Msgs

/-! ## C integer conversions -/

/-- Value obtained by converting `x` to an unsigned C type of `w` bits. -/
def to_unsigned (w : Nat) (x : Int) : Int := x % 2 ^ w

/-- Value obtained by converting `x` to a signed two's-complement C type of `w` bits. -/
def to_signed (w : Nat) (x : Int) : Int := (x + 2 ^ (w - 1)) % 2 ^ w - 2 ^ (w - 1)

/-! ## `make_isc_code` (msgs.c, lines 21-29)

`ISC_USHORT` is `unsigned short` (16 bits), `int` has 32 bits and `ISC_STATUS` is
`intptr_t`, whose width `ptr_bits` is a parameter of the embedding. -/

/-- Embedding of `int make_isc_code(int facility, int code)`. -/
def make_isc_code (ptr_bits : Nat) (facility code : Int) : Int :=
  -- ISC_USHORT t1 = facility;
  let t1 := to_unsigned 16 facility
  -- t1 &= 0x1F;
  let t1 := to_unsigned 16 (Int.land t1 0x1F)
  -- ISC_STATUS t2 = t1;
  let t2 := to_signed ptr_bits t1
  -- t2 <<= 16;
  let t2 := to_signed ptr_bits (t2 <<< (16 : Int))
  -- ISC_STATUS t3 = code;
  let t3 := to_signed ptr_bits code
  -- code &= 0x3FFF;
  let code := to_signed 32 (Int.land code 0x3FFF)
  -- return t2 | t3 | ((ISC_STATUS) 0x14000000);
  to_signed 32 (Int.lor (Int.lor t2 t3) (to_signed ptr_bits 0x14000000))

/-- The packing formula as the specification words it:
`((facility & 0x1F) << 16) | (rawCode & 0x3FFF) | 0x14000000`. -/
def documented_isc_code (facility rawCode : Int) : Int :=
  Int.lor (Int.lor (Int.land facility 0x1F <<< (16 : Int)) (Int.land rawCode 0x3FFF)) 0x14000000

/-- The packing with the raw code left unmasked,
`((facility & 0x1F) << 16) | rawCode | 0x14000000`, narrowed to the 32-bit `int` result. -/
def unmasked_isc_code (facility rawCode : Int) : Int :=
  to_signed 32 (Int.lor (Int.lor (Int.land facility 0x1F <<< (16 : Int)) rawCode) 0x14000000)

/-- Decoding of the facility field of a packed code: `(packed >> 16) & 0x1F`. -/
def decode_facility (packed : Int) : Int := Int.land (packed >>> (16 : Int)) 0x1F

/-- Decoding of the code field of a packed code: `packed & 0x3FFF`. -/
def decode_code (packed : Int) : Int := Int.land packed 0x3FFF

end Msgs

namespace Errmsgs

/-! ## `main` (errmsgs.c, lines 35-60) -/

/-- Modelled from the spec: the element type of the `messages` array, which is declared in
    `msgs.h` (not part of the sources); the specification calls it a message record, a code
    together with a text. `main` reads the field `code_number` (printed with `%ld`) and the
    field `code_text` (a C string pointer, `none` when it is the null pointer that ends the
    array). -/
structure message where
  code_number : Int
  code_text : Option String

/-- Text written by the first `fprintf` (lines 40-51): the licence comment block. -/
def license_block : String :=
  "/****************************************************************************\n" ++
  "The contents of this file are subject to the Interbase Public\n" ++
  "License Version 1.0 (the \"License\"); you may not use this file\n" ++
  "except in compliance with the License. You may obtain a copy\n" ++
  "of the License at http://www.Inprise.com/IPL.html\n" ++
  "\n" ++
  "Software distributed under the License is distributed on an\n" ++
  "\"AS IS\" basis, WITHOUT WARRANTY OF ANY KIND, either express\n" ++
  "or implied. See the License for the specific language governing\n" ++
  "rights and limitations under the License.\n\n" ++
  "*****************************************************************************/\n\n"

/-- Text written by the second `fprintf` (line 52). -/
def package_block : String :=
  "package firebirdsql\n\nvar errmsgs = map[int]string\x7b\n"

/-- Text written by the `fprintf` of the loop body (line 54), format
    `"\t%ld: \"%s\\n\",\n"` applied to `code_number` and `code_text`. -/
def entry_line (code_number : Int) (code_text : String) : String :=
  "\t" ++ toString code_number ++ ": \"" ++ code_text ++ "\\n\",\n"

/-- The loop `for (i = 0; messages[i].code_text; i++)` of lines 53-55, on the elements from
    index `i` on; `fp` is the text written to the stream so far. -/
def write_entries : List message → String → String
  | [], fp => fp
  | m :: rest, fp =>
    match m.code_text with
    | none => fp
    | some text => write_entries rest (fp ++ entry_line m.code_number text)

/-- Embedding of `main` for the text it hands to the stream. `fopen_ok` tells whether
    `fopen("../errmsgs.go", "w")` returned a stream. With a stream the result is the value
    `main` returns and the text handed to the stream by its `fprintf` calls; without one
    `main` does not return (`none`): the first `fprintf` has a null stream. How the process
    ends then, and what a device that refuses characters keeps of the text, is in
    `run_main` below. -/
def main (fopen_ok : Bool) (messages : List message) : Option (Int × String) :=
  if fopen_ok then
    -- FILE *fp = fopen("../errmsgs.go", "w");
    let fp := ""
    let fp := fp ++ license_block
    let fp := fp ++ package_block
    let fp := write_entries messages fp
    let fp := fp ++ "\x7d\n"
    -- fclose(fp); return 0;
    some (0, fp)
  else
    none

/-- Table holding the given records, in order, followed by the sentinel `\x7b0, NULL\x7d`
    that ends the `messages` array. -/
def table_of (records : List (Int × String)) : List message :=
  records.map (fun r => ⟨r.1, some r.2⟩) ++ [⟨0, none⟩]

/-- Backslash-escaping of the double quotes and backslashes of a text, the quoting
    convention the specification describes for the entry line. -/
def backslash_escape (text : String) : String :=
  String.mk (text.data.flatMap (fun c => if c = '"' ∨ c = '\\' then ['\\', c] else [c]))

/-- The entry line as the specification words it: the decimal key, `: `, and the text as a
    double-quoted literal with its quotes and backslashes escaped, ended by `\n`. -/
def documented_entry_line (code : Int) (text : String) : String :=
  "\t" ++ toString code ++ ": \"" ++ backslash_escape text ++ "\\n\",\n"

/-- Number denoted by a list of decimal digit characters, most significant first. -/
def dec_value (cs : List Char) : Nat :=
  cs.foldl (fun a c => 10 * a + (c.toNat - 48)) 0

/-! ## The run of the generator as a process

`main` above gives the text handed to the stream. The definitions below follow the same
statements of errmsgs.c with the results of the library calls: `fopen` may return no
stream, and the device behind the stream may refuse characters. -/

/-- Text `s` cut to the first `room` characters, what a device with room for `room`
    characters keeps of it. -/
def truncate (room : Nat) (s : String) : String := String.mk (s.data.take room)

/-- The call `fprintf(fp, ...)` on an open stream whose device has room for `room`
    characters in all: `fp` is the content so far and `text` the formatted text. The
    result is the value returned (the number of characters, or a negative value when
    some were refused) and the new content. -/
def fprintf (room : Nat) (fp text : String) : Int × String :=
  (if (fp ++ text).length ≤ room then (text.length : Int) else -1, truncate room (fp ++ text))

/-- The loop of lines 53-55 on an open stream with room for `room` characters; the value
    returned by `fprintf` is discarded, as in the source. -/
def write_entries_on (room : Nat) : List message → String → String
  | [], fp => fp
  | m :: rest, fp =>
    match m.code_text with
    | none => fp
    | some text => write_entries_on room rest (fprintf room fp (entry_line m.code_number text)).2

/-- How a run of the generator ends: `main` returns `status` and leaves `file` as the
    content of `../errmsgs.go`, or the process is ended by a signal, no file being
    created. -/
inductive outcome where
  | exited (status : Int) (file : String)
  | killed (signal : Nat)
deriving DecidableEq

/-- Embedding of `main` (lines 35-60) with the results of the library calls.
    `fopen_result` is `none` when `fopen("../errmsgs.go", "w")` returns no stream, and
    `some room` when it returns a stream on a device with room for `room` characters.
    `main` does not test the stream: with no stream the first `fprintf` receives a null
    pointer, which the C standard leaves undefined and which ends the process with the
    signal SIGSEGV (11). With a stream, the values returned by `fprintf` and `fclose` are
    discarded and `main` returns 0. -/
def run_main (fopen_result : Option Nat) (messages : List message) : outcome :=
  -- FILE *fp = fopen("../errmsgs.go", "w");
  match fopen_result with
  | none => outcome.killed 11
  | some room =>
    let fp := ""
    let fp := (fprintf room fp license_block).2
    let fp := (fprintf room fp package_block).2
    let fp := write_entries_on room messages fp
    let fp := (fprintf room fp "\x7d\n").2
    -- fclose(fp); return 0;
    outcome.exited 0 fp

/-- Exit status of a run as the parent process reads it: the value `main` returned, or
    128 plus the signal number for a process ended by a signal. -/
def exit_status : outcome → Int
  | outcome.exited status _ => status
  | outcome.killed signal => 128 + signal

/-- Content of the output file a run leaves, `none` when the run created no file. -/
def file_of : outcome → Option String
  | outcome.exited _ file => some file
  | outcome.killed _ => none

end Errmsgs

namespace Msgs

/-! ## Bit-level facts about `Int` -/

theorem int_eq_of_testBit_eq (a b : Int) (h : ∀ i, a.testBit i = b.testBit i) : a = b := by
  have big : ∀ m n : Nat, Nat.testBit m (m + n) = false ∧ Nat.testBit n (m + n) = false := by
    intro m n
    constructor
    · apply Nat.testBit_lt_two_pow
      calc m < 2 ^ m := Nat.lt_two_pow m
        _ ≤ 2 ^ (m + n) := Nat.pow_le_pow_right (by decide) (by omega)
    · apply Nat.testBit_lt_two_pow
      calc n < 2 ^ n := Nat.lt_two_pow n
        _ ≤ 2 ^ (m + n) := Nat.pow_le_pow_right (by decide) (by omega)
  cases a with
  | ofNat m =>
    cases b with
    | ofNat n =>
      congr 1
      exact Nat.eq_of_testBit_eq h
    | negSucc n =>
      exfalso
      have h1 := h (m + n)
      simp only [Int.testBit] at h1
      rw [(big m n).1, (big m n).2] at h1
      exact absurd h1 (by decide)
  | negSucc m =>
    cases b with
    | ofNat n =>
      exfalso
      have h1 := h (m + n)
      simp only [Int.testBit] at h1
      rw [(big m n).1, (big m n).2] at h1
      exact absurd h1 (by decide)
    | negSucc n =>
      congr 1
      apply Nat.eq_of_testBit_eq
      intro i
      have h1 := h i
      simp only [Int.testBit] at h1
      cases hm : Nat.testBit m i <;> cases hn : Nat.testBit n i <;> simp_all

theorem testBit_emod_two_pow (x : Int) (w i : Nat) :
    Int.testBit (x % 2 ^ w) i = (decide (i < w) && Int.testBit x i) := by
  cases x with
  | ofNat n =>
    have e : (Int.ofNat n) % 2 ^ w = Int.ofNat (n % 2 ^ w) := by
      simp
    rw [e]
    simp only [Int.testBit]
    exact Nat.testBit_mod_two_pow n w i
  | negSucc n =>
    have hp : (0 : Int) < 2 ^ w := by positivity
    have hlt : n % 2 ^ w < 2 ^ w := Nat.mod_lt _ (by positivity)
    have e : Int.negSucc n % 2 ^ w = Int.ofNat (2 ^ w - (n % 2 ^ w + 1)) := by
      rw [Int.negSucc_emod n hp]
      have : ((n % 2 ^ w : Nat) : Int) = (n : Int) % 2 ^ w := by simp
      rw [← this]
      simp only [Int.ofNat_eq_coe]
      rw [Nat.cast_sub (by omega)]
      push_cast
      ring
    rw [e]
    simp only [Int.testBit]
    rw [Nat.testBit_two_pow_sub_succ hlt, Nat.testBit_mod_two_pow]
    cases decide (i < w) <;> simp


theorem to_signed_emod (w : Nat) (x : Int) : to_signed w x % 2 ^ w = x % 2 ^ w := by
  unfold to_signed
  cases w with
  | zero => simp [Int.emod_one]
  | succ k =>
    have e : (2 : Int) ^ (k + 1) = 2 * 2 ^ k := by ring
    simp only [Nat.add_sub_cancel]
    rw [Int.sub_emod, Int.emod_emod_of_dvd _ (dvd_refl _), ← Int.sub_emod]
    simp

theorem testBit_to_signed (w : Nat) (x : Int) (i : Nat) (h : i < w) :
    Int.testBit (to_signed w x) i = Int.testBit x i := by
  have h1 := testBit_emod_two_pow (to_signed w x) w i
  have h2 := testBit_emod_two_pow x w i
  rw [to_signed_emod] at h1
  rw [h1] at h2
  simpa [h] using h2

theorem testBit_to_unsigned (w : Nat) (x : Int) (i : Nat) :
    Int.testBit (to_unsigned w x) i = (decide (i < w) && Int.testBit x i) :=
  testBit_emod_two_pow x w i

theorem testBit_mul_two_pow (x : Int) (n i : Nat) :
    Int.testBit (x * 2 ^ n) i = (decide (n ≤ i) && Int.testBit x (i - n)) := by
  induction n generalizing i with
  | zero => simp
  | succ n ih =>
    have e : x * 2 ^ (n + 1) = Int.bit false (x * 2 ^ n) := by
      rw [Int.bit_val]; simp; ring
    rw [e]
    cases i with
    | zero => simp [Int.testBit_bit_zero]
    | succ i =>
      rw [Int.testBit_bit_succ, ih]
      simp

theorem testBit_shiftLeft (x : Int) (n i : Nat) :
    Int.testBit (x <<< (n : Int)) i = (decide (n ≤ i) && Int.testBit x (i - n)) := by
  rw [Int.shiftLeft_eq_mul_pow]
  push_cast
  exact testBit_mul_two_pow x n i

theorem to_signed_congr (w : Nat) (x y : Int) (h : ∀ i, i < w → Int.testBit x i = Int.testBit y i) :
    to_signed w x = to_signed w y := by
  have e : x % 2 ^ w = y % 2 ^ w := by
    apply int_eq_of_testBit_eq
    intro i
    rw [testBit_emod_two_pow, testBit_emod_two_pow]
    by_cases hi : i < w
    · simp [hi, h i hi]
    · simp [hi]
  unfold to_signed
  rw [Int.add_emod, e, ← Int.add_emod]


theorem testBit_mask_1F (j : Nat) : Int.testBit (0x1F : Int) j = decide (j < 5) := by
  show Nat.testBit (2 ^ 5 - 1) j = decide (j < 5)
  exact Nat.testBit_two_pow_sub_one 5 j

theorem testBit_mask_3FFF (j : Nat) : Int.testBit (0x3FFF : Int) j = decide (j < 14) := by
  show Nat.testBit (2 ^ 14 - 1) j = decide (j < 14)
  exact Nat.testBit_two_pow_sub_one 14 j

theorem testBit_isc_mask (j : Nat) :
    Int.testBit (0x14000000 : Int) j = decide (j = 26 ∨ j = 28) := by
  show Nat.testBit (2 ^ 26 ||| 2 ^ 28) j = decide (j = 26 ∨ j = 28)
  rw [Nat.testBit_or, Nat.testBit_two_pow, Nat.testBit_two_pow]
  by_cases h1 : j = 26 <;> by_cases h2 : j = 28 <;> simp [h1, h2, eq_comm]

theorem testBit_shiftLeft_16 (x : Int) (i : Nat) :
    Int.testBit (x <<< (16 : Int)) i = (decide (16 ≤ i) && Int.testBit x (i - 16)) := by
  have h := testBit_shiftLeft x 16 i
  exact_mod_cast h

/-- Bit `i` (for `i < 32`) of the value returned by `make_isc_code`. -/
theorem testBit_make_isc_code (w : Nat) (hw : 32 ≤ w) (f c : Int) (i : Nat) (hi : i < 32) :
    Int.testBit (make_isc_code w f c) i =
      ((decide (16 ≤ i ∧ i < 21) && Int.testBit f (i - 16)) || Int.testBit c i
        || decide (i = 26 ∨ i = 28)) := by
  have hiw : i < w := by omega
  unfold make_isc_code
  simp only []
  rw [testBit_to_signed 32 _ i hi, Int.testBit_lor, Int.testBit_lor,
    testBit_to_signed w _ i hiw, testBit_to_signed w _ i hiw, testBit_to_signed w _ i hiw,
    testBit_isc_mask, testBit_shiftLeft_16]
  by_cases h16 : 16 ≤ i
  · have h2 : i - 16 < w := by omega
    rw [testBit_to_signed w _ _ h2, testBit_to_unsigned, Int.testBit_land, testBit_to_unsigned,
      testBit_mask_1F]
    by_cases h21 : i < 21
    · have a : i - 16 < 16 := by omega
      have b : i - 16 < 5 := by omega
      simp [h16, h21, a, b]
    · have b : ¬ (i - 16 < 5) := by omega
      simp [h16, h21, b]
  · simp [h16]


theorem testBit_eq_false_of_lt (c : Int) (k i : Nat) (h0 : 0 ≤ c) (h1 : c < 2 ^ k) (hi : k ≤ i) :
    Int.testBit c i = false := by
  obtain ⟨n, rfl⟩ := Int.eq_ofNat_of_zero_le h0
  show Nat.testBit n i = false
  apply Nat.testBit_lt_two_pow
  have hn : n < 2 ^ k := by exact_mod_cast h1
  exact lt_of_lt_of_le hn (Nat.pow_le_pow_right (by decide) hi)

/-! ## Claims about `make_isc_code` -/

/-- C1 (failing input). At facility 0 and raw code 0x4000 the function returns 0x14004000,
    because the 14-bit mask is applied to `code` only after `t3` has taken its value, while
    the documented formula gives 0x14000000. -/
theorem C1_unmasked_code_at_0x4000 :
    make_isc_code 64 0 0x4000 = 0x14004000 ∧ make_isc_code 32 0 0x4000 = 0x14004000 ∧
      documented_isc_code 0 0x4000 = 0x14000000 := by
  decide

/-- C2 (counterexample). The tag invariant as stated fails at facility 0 and raw code 0:
    it is not the case that bit 26 is set and bits 27 to 31 are all clear, since bit 28 of
    the result 0x14000000 is set. -/
theorem C2_tag_bits_counterexample :
    ¬ ((0 : Int) ≤ 0 ∧ (0 : Int) ≤ 31 ∧ (0 : Int) ≤ 0x3FFF →
        Int.testBit (make_isc_code 64 0 0) 26 = true ∧
        Int.testBit (make_isc_code 64 0 0) 27 = false ∧
        Int.testBit (make_isc_code 64 0 0) 28 = false ∧
        Int.testBit (make_isc_code 64 0 0) 29 = false ∧
        Int.testBit (make_isc_code 64 0 0) 30 = false ∧
        Int.testBit (make_isc_code 64 0 0) 31 = false) := by
  decide

/-- C2 (amended). For every facility in [0, 31] and raw code in [0, 0x3FFF], whatever the
    pointer width (at least 32 bits), the result of `make_isc_code` has bits 26 and 28 set
    and bits 27, 29, 30 and 31 clear. -/
theorem C2_tag_bits (w : Nat) (facility rawCode : Int) (hw : 32 ≤ w)
    (hf0 : 0 ≤ facility) (hf1 : facility ≤ 31) (hc0 : 0 ≤ rawCode) (hc1 : rawCode ≤ 0x3FFF) :
    Int.testBit (make_isc_code w facility rawCode) 26 = true ∧
    Int.testBit (make_isc_code w facility rawCode) 28 = true ∧
    Int.testBit (make_isc_code w facility rawCode) 27 = false ∧
    Int.testBit (make_isc_code w facility rawCode) 29 = false ∧
    Int.testBit (make_isc_code w facility rawCode) 30 = false ∧
    Int.testBit (make_isc_code w facility rawCode) 31 = false := by
  have hc : ∀ i, 14 ≤ i → Int.testBit rawCode i = false := fun i hi =>
    testBit_eq_false_of_lt rawCode 14 i hc0 (by norm_num; omega) hi
  refine ⟨?_, ?_, ?_, ?_, ?_, ?_⟩
  · rw [testBit_make_isc_code w hw _ _ 26 (by decide), hc 26 (by decide)]; simp
  · rw [testBit_make_isc_code w hw _ _ 28 (by decide), hc 28 (by decide)]; simp
  · rw [testBit_make_isc_code w hw _ _ 27 (by decide), hc 27 (by decide)]; simp
  · rw [testBit_make_isc_code w hw _ _ 29 (by decide), hc 29 (by decide)]; simp
  · rw [testBit_make_isc_code w hw _ _ 30 (by decide), hc 30 (by decide)]; simp
  · rw [testBit_make_isc_code w hw _ _ 31 (by decide), hc 31 (by decide)]; simp

/-- C2 (witness). The amended tag invariant at pointer width 64, facility 3, raw code 5. -/
theorem C2_tag_bits_witness :
    (32 ≤ 64 ∧ (0 : Int) ≤ 3 ∧ (3 : Int) ≤ 31 ∧ (0 : Int) ≤ 5 ∧ (5 : Int) ≤ 0x3FFF) ∧
    (Int.testBit (make_isc_code 64 3 5) 26 = true ∧
     Int.testBit (make_isc_code 64 3 5) 28 = true ∧
     Int.testBit (make_isc_code 64 3 5) 27 = false ∧
     Int.testBit (make_isc_code 64 3 5) 29 = false ∧
     Int.testBit (make_isc_code 64 3 5) 30 = false ∧
     Int.testBit (make_isc_code 64 3 5) 31 = false) :=
  ⟨by decide, C2_tag_bits 64 3 5 (by decide) (by decide) (by decide) (by decide) (by decide)⟩

/-- C3 (failing input). Masking the raw code first changes the result: at facility 0 and
    raw code 0x4000 the function returns 0x14004000, while on the masked arguments
    (0 & 0x1F, 0x4000 & 0x3FFF) it returns 0x14000000. -/
theorem C3_masking_law_fails_at_0x4000 :
    make_isc_code 64 0 0x4000 = 0x14004000 ∧
      make_isc_code 64 (Int.land 0 0x1F) (Int.land 0x4000 0x3FFF) = 0x14000000 ∧
      make_isc_code 64 0 0x4000 ≠ make_isc_code 64 (Int.land 0 0x1F) (Int.land 0x4000 0x3FFF) := by
  decide

/-- C4 (failing input). At facility 0 and raw code 0x10000 the packed value is 0x14010000,
    whose facility field decodes to 1 although the masked facility is 0: bits 16 to 20 of the
    unmasked raw code leak into the facility field. -/
theorem C4_facility_round_trip_fails_at_0x10000 :
    make_isc_code 64 0 0x10000 = 0x14010000 ∧
      decode_facility (make_isc_code 64 0 0x10000) = 1 ∧ Int.land 0 0x1F = 0 := by
  decide

/-- C5. Code round trip: for every facility and raw code (and every pointer width of at least
    32 bits), decoding `packed & 0x3FFF` of the packed result gives `rawCode & 0x3FFF`. -/
theorem C5_code_round_trip (w : Nat) (facility rawCode : Int) (hw : 32 ≤ w) :
    decode_code (make_isc_code w facility rawCode) = Int.land rawCode 0x3FFF := by
  unfold decode_code
  apply int_eq_of_testBit_eq
  intro i
  rw [Int.testBit_land, Int.testBit_land, testBit_mask_3FFF]
  by_cases hi : i < 14
  · rw [testBit_make_isc_code w hw _ _ i (by omega)]
    have a : ¬ (16 ≤ i ∧ i < 21) := by omega
    have b : ¬ (i = 26 ∨ i = 28) := by omega
    simp [a, b]
  · simp [hi]

/-- C5 (witness). The code round trip at pointer width 64, facility 40 and raw code -3. -/
theorem C5_code_round_trip_witness :
    32 ≤ 64 ∧ decode_code (make_isc_code 64 40 (-3)) = Int.land (-3) 0x3FFF :=
  ⟨by decide, C5_code_round_trip 64 40 (-3) (by decide)⟩

end Msgs

namespace Errmsgs

/-! ## Facts about the emitted text -/

theorem join_cons (a : String) (l : List String) : String.join (a :: l) = a ++ String.join l := by
  rw [String.join_eq, String.join_eq]
  apply String.ext
  simp

theorem join_append (l1 l2 : List String) :
    String.join (l1 ++ l2) = String.join l1 ++ String.join l2 := by
  rw [String.join_eq, String.join_eq, String.join_eq]
  apply String.ext
  simp

theorem write_entries_cons_some (c : Int) (t : String) (l : List message) (fp : String) :
    write_entries (⟨c, some t⟩ :: l) fp = write_entries l (fp ++ entry_line c t) := rfl

/-- The loop writes the lines of the records that precede the first null `code_text`, in
    order, and nothing else. -/
theorem write_entries_records (records : List (Int × String)) (c : Int) (rest : List message)
    (fp : String) :
    write_entries (records.map (fun r => ⟨r.1, some r.2⟩) ++ ⟨c, none⟩ :: rest) fp =
      fp ++ String.join (records.map (fun r => entry_line r.1 r.2)) := by
  induction records generalizing fp with
  | nil => simp [write_entries, String.join]
  | cons r records ih =>
    simp only [List.map_cons, List.cons_append]
    rw [write_entries_cons_some, ih, join_cons, String.append_assoc]

theorem main_table_of (records : List (Int × String)) :
    main true (table_of records) =
      some (0, license_block ++ package_block ++
        String.join (records.map (fun r => entry_line r.1 r.2)) ++ "\x7d\n") := by
  unfold main table_of
  simp only [if_true, String.empty_append]
  rw [write_entries_records]


/-! ## The decimal key can be read back -/

theorem digitChar_value (k : Nat) (h : k < 10) : (Nat.digitChar k).toNat - 48 = k := by
  interval_cases k <;> rfl

theorem digitChar_ne (k : Nat) (h : k < 10) : Nat.digitChar k ≠ ':' ∧ Nat.digitChar k ≠ '-' := by
  interval_cases k <;> decide

theorem foldl_toDigitsCore (fuel n : Nat) (ds : List Char) (h : n < fuel) :
    List.foldl (fun a c => 10 * a + (c.toNat - 48)) 0 (Nat.toDigitsCore 10 fuel n ds) =
      List.foldl (fun a c => 10 * a + (c.toNat - 48)) n ds := by
  induction fuel generalizing n ds with
  | zero => omega
  | succ fuel ih =>
    unfold Nat.toDigitsCore
    simp only []
    split
    · rename_i h0
      have hn : n % 10 = n := by omega
      simp only [List.foldl_cons]
      rw [digitChar_value _ (Nat.mod_lt _ (by decide)), hn]
      simp
    · rename_i h0
      rw [ih (n / 10) _ (by omega)]
      simp only [List.foldl_cons]
      rw [digitChar_value _ (Nat.mod_lt _ (by decide))]
      congr 1
      omega

theorem dec_value_toDigits (n : Nat) : dec_value (Nat.toDigits 10 n) = n := by
  unfold dec_value Nat.toDigits
  rw [foldl_toDigitsCore _ _ _ (by omega)]
  rfl

theorem mem_toDigitsCore (fuel n : Nat) (ds : List Char) (c : Char)
    (h : c ∈ Nat.toDigitsCore 10 fuel n ds) : c ∈ ds ∨ ∃ k, k < 10 ∧ c = Nat.digitChar k := by
  induction fuel generalizing n ds with
  | zero => left; simpa [Nat.toDigitsCore] using h
  | succ fuel ih =>
    unfold Nat.toDigitsCore at h
    simp only [] at h
    split at h
    · rcases List.mem_cons.mp h with h1 | h1
      · right; exact ⟨n % 10, Nat.mod_lt _ (by decide), h1⟩
      · left; exact h1
    · rcases ih _ _ h with h1 | h1
      · rcases List.mem_cons.mp h1 with h2 | h2
        · right; exact ⟨n % 10, Nat.mod_lt _ (by decide), h2⟩
        · left; exact h2
      · right; exact h1

theorem mem_toDigits (n : Nat) (c : Char) (h : c ∈ Nat.toDigits 10 n) : c ≠ ':' ∧ c ≠ '-' := by
  rcases mem_toDigitsCore _ _ _ _ h with h1 | ⟨k, hk, rfl⟩
  · simp at h1
  · exact digitChar_ne k hk

theorem toString_ofNat_data (m : Nat) : (toString (Int.ofNat m)).data = Nat.toDigits 10 m := rfl

theorem toString_negSucc_data (m : Nat) :
    (toString (Int.negSucc m)).data = '-' :: Nat.toDigits 10 (m + 1) := rfl

theorem colon_not_mem_toString (a : Int) : ':' ∉ (toString a).data := by
  intro h
  cases a with
  | ofNat m =>
    rw [toString_ofNat_data] at h
    exact (mem_toDigits m _ h).1 rfl
  | negSucc m =>
    rw [toString_negSucc_data] at h
    rcases List.mem_cons.mp h with h1 | h1
    · exact absurd h1 (by decide)
    · exact (mem_toDigits _ _ h1).1 rfl

theorem toString_int_injective (a b : Int) (h : (toString a).data = (toString b).data) : a = b := by
  cases a with
  | ofNat m =>
    cases b with
    | ofNat n =>
      rw [toString_ofNat_data, toString_ofNat_data] at h
      have := congrArg dec_value h
      rw [dec_value_toDigits, dec_value_toDigits] at this
      rw [this]
    | negSucc n =>
      rw [toString_ofNat_data, toString_negSucc_data] at h
      have hm : '-' ∈ Nat.toDigits 10 m := by rw [h]; exact List.mem_cons_self _ _
      exact absurd rfl (mem_toDigits m _ hm).2
  | negSucc m =>
    cases b with
    | ofNat n =>
      rw [toString_ofNat_data, toString_negSucc_data] at h
      have hm : '-' ∈ Nat.toDigits 10 n := by rw [← h]; exact List.mem_cons_self _ _
      exact absurd rfl (mem_toDigits n _ hm).2
    | negSucc n =>
      rw [toString_negSucc_data, toString_negSucc_data] at h
      have h2 := List.tail_eq_of_cons_eq h
      have := congrArg dec_value h2
      rw [dec_value_toDigits, dec_value_toDigits] at this
      have e : m = n := by omega
      rw [e]

theorem append_colon_inj (d1 d2 r1 r2 : List Char) (h1 : ':' ∉ d1) (h2 : ':' ∉ d2)
    (h : d1 ++ ':' :: r1 = d2 ++ ':' :: r2) : d1 = d2 ∧ r1 = r2 := by
  induction d1 generalizing d2 with
  | nil =>
    cases d2 with
    | nil => simpa using h
    | cons y d2 =>
      simp only [List.nil_append, List.cons_append, List.cons.injEq] at h
      exact absurd (List.mem_cons.mpr (Or.inl h.1)) h2
  | cons x d1 ih =>
    cases d2 with
    | nil =>
      simp only [List.nil_append, List.cons_append, List.cons.injEq] at h
      exact absurd (List.mem_cons.mpr (Or.inl h.1.symm)) h1
    | cons y d2 =>
      simp only [List.cons_append, List.cons.injEq] at h
      have := ih d2 (fun hm => h1 (List.mem_cons_of_mem _ hm))
        (fun hm => h2 (List.mem_cons_of_mem _ hm)) h.2
      exact ⟨by rw [h.1, this.1], this.2⟩

theorem entry_line_injective (c1 c2 : Int) (t1 t2 : String)
    (h : entry_line c1 t1 = entry_line c2 t2) : c1 = c2 ∧ t1 = t2 := by
  have hd := congrArg String.data h
  unfold entry_line at hd
  simp only [String.data_append] at hd
  simp only [List.cons_append, List.nil_append, List.append_assoc, List.cons.injEq, true_and] at hd
  obtain ⟨hk, hr⟩ := append_colon_inj _ _ _ _ (colon_not_mem_toString c1)
    (colon_not_mem_toString c2) hd
  refine ⟨toString_int_injective c1 c2 hk, ?_⟩
  simp only [List.cons.injEq, true_and] at hr
  exact String.ext (List.append_cancel_right hr)


/-! ## Claims about the emitter -/

set_option maxRecDepth 100000 in
/-- C6 (counterexample). For the record (1, `a"b`) the emitted file is not the one holding
    the entry line with the escaped text: the emitter writes the double quote of the text
    as it is, so the entry line is `1: "a"b\n",` and not `1: "a\"b\n",`. -/
theorem C6_entry_line_escaping_counterexample :
    ¬ (main true (table_of [(1, "a\"b")]) =
        some (0, license_block ++ package_block ++ documented_entry_line 1 "a\"b" ++ "\x7d\n")) := by
  decide

/-- C6 (amended). For every record (code, text) of the table, whatever the records before
    and after it, the entry line written for it is a tab, the code in decimal, `: `, a double
    quote, the text exactly as it is stored (nothing is escaped), the two characters `\n`,
    a double quote, a comma and a newline; for the record (999, `Hello`) the line reads
    `999: "Hello\n",` after the tab. -/
theorem C6_entry_line_verbatim (before after : List (Int × String)) (code : Int) (text : String) :
    main true (table_of (before ++ (code, text) :: after)) =
        some (0, license_block ++ package_block ++
          String.join (before.map (fun r => entry_line r.1 r.2)) ++
          ("\t" ++ toString code ++ ": " ++ "\"" ++ text ++ "\\n" ++ "\"" ++ "," ++ "\n") ++
          String.join (after.map (fun r => entry_line r.1 r.2)) ++ "\x7d\n") ∧
    main true (table_of [(999, "Hello")]) =
        some (0, license_block ++ package_block ++ "\t999: \"Hello\\n\",\n" ++ "\x7d\n") := by
  constructor
  · rw [main_table_of, List.map_append, List.map_cons, join_append, join_cons]
    have e : entry_line code text =
        "\t" ++ toString code ++ ": " ++ "\"" ++ text ++ "\\n" ++ "\"" ++ "," ++ "\n" := by
      unfold entry_line
      apply String.ext
      simp
    rw [e]
    simp only [String.append_assoc]
  · rw [main_table_of]
    have h : String.join (List.map (fun r => entry_line r.1 r.2) [(999, "Hello")]) =
        "\t999: \"Hello\\n\",\n" := by decide
    rw [h]

/-- C7. For every table of N records followed by the sentinel, the emitted text is the
    opening part ending with the line `var errmsgs = map[int]string\x7b`, then exactly N
    entry lines (one per record), then the closing brace line; every entry line ends with
    the escape `\n`, the closing quote and a comma (followed by the line break). -/
theorem C7_entry_line_count (records : List (Int × String)) :
    main true (table_of records) =
        some (0, license_block ++ "package firebirdsql\n\n" ++ "var errmsgs = map[int]string\x7b\n" ++
          String.join (records.map (fun r => entry_line r.1 r.2)) ++ "\x7d\n") ∧
    (records.map (fun r => entry_line r.1 r.2)).length = records.length ∧
    ∀ line ∈ records.map (fun r => entry_line r.1 r.2),
      ∃ body : String, line = body ++ "\\n\"," ++ "\n" := by
  refine ⟨?_, by simp, ?_⟩
  · rw [main_table_of]
    have h : package_block = "package firebirdsql\n\n" ++ "var errmsgs = map[int]string\x7b\n" := by
      decide
    rw [h]
    simp only [String.append_assoc]
  · intro line hline
    obtain ⟨r, _, rfl⟩ := List.mem_map.mp hline
    refine ⟨"\t" ++ toString r.1 ++ ": \"" ++ r.2, ?_⟩
    unfold entry_line
    apply String.ext
    simp

/-- C9. For every table the emitted text is the licence comment block, the line
    `package firebirdsql`, a blank line, the line `var errmsgs = map[int]string\x7b`, the
    entry lines of the records in order, and the line `\x7d`; the text before the first
    entry line and the text after the last one do not depend on the table. -/
theorem C9_emitted_text (records : List (Int × String)) :
    main true (table_of records) =
      some (0, license_block ++ "package firebirdsql\n" ++ "\n" ++
        "var errmsgs = map[int]string\x7b\n" ++
        String.join (records.map (fun r => entry_line r.1 r.2)) ++ "\x7d\n") := by
  rw [main_table_of]
  have h : package_block =
      "package firebirdsql\n" ++ "\n" ++ "var errmsgs = map[int]string\x7b\n" := by
    decide
  rw [h]
  simp only [String.append_assoc]

/-- C10. When the sentinel is the first element of the table the loop writes nothing: the
    emitted text is the licence block, the package line and a blank line, then
    `var errmsgs = map[int]string\x7b`, a newline, `\x7d` and a newline. -/
theorem C10_empty_table (c : Int) (rest : List message) :
    main true (⟨c, none⟩ :: rest) =
      some (0, license_block ++ "package firebirdsql\n\n" ++
        ("var errmsgs = map[int]string\x7b" ++ "\n" ++ "\x7d" ++ "\n")) := by
  have h : package_block ++ "\x7d\n" =
      "package firebirdsql\n\n" ++ ("var errmsgs = map[int]string\x7b" ++ "\n" ++ "\x7d" ++ "\n") := by
    decide
  unfold main
  simp only [if_true, String.empty_append, write_entries]
  rw [String.append_assoc, h, ← String.append_assoc]


/-- C8. The entry lines are those of the input records, in input order, one per record
    and with nothing merged: the only sequence of (key, text) pairs whose entry lines are
    the emitted ones is the input sequence itself, and two records at positions i < j with
    the same code give the entry lines at positions i and j, both under that key, each with
    its own text. -/
theorem C8_order_and_duplicates_kept (records : List (Int × String)) :
    main true (table_of records) =
        some (0, license_block ++ package_block ++
          String.join (records.map (fun r => entry_line r.1 r.2)) ++ "\x7d\n") ∧
    (∀ others : List (Int × String),
      others.map (fun r => entry_line r.1 r.2) = records.map (fun r => entry_line r.1 r.2) →
        others = records) ∧
    (∀ (i j : Nat) (ri rj : Int × String), i < j →
      records[i]? = some ri → records[j]? = some rj → ri.1 = rj.1 →
        (records.map (fun r => entry_line r.1 r.2))[i]? = some (entry_line ri.1 ri.2) ∧
        (records.map (fun r => entry_line r.1 r.2))[j]? = some (entry_line ri.1 rj.2)) := by
  refine ⟨main_table_of records, ?_, ?_⟩
  · intro others h
    have inj : Function.Injective (fun r : Int × String => entry_line r.1 r.2) := by
      intro a b hab
      obtain ⟨h1, h2⟩ := entry_line_injective a.1 b.1 a.2 b.2 hab
      exact Prod.ext h1 h2
    exact List.map_injective_iff.mpr inj h
  · intro i j ri rj _ hi hj hc
    rw [List.getElem?_map, List.getElem?_map, hi, hj]
    refine ⟨rfl, ?_⟩
    show some (entry_line rj.1 rj.2) = some (entry_line ri.1 rj.2)
    rw [hc]

end Errmsgs

namespace Errmsgs

/-! ## Exit status -/

theorem truncate_append (room : Nat) (a b : String) :
    truncate room (truncate room a ++ b) = truncate room (a ++ b) := by
  unfold truncate
  apply String.ext
  simp only [String.data_append]
  rw [List.take_append_eq_append_take, List.take_append_eq_append_take, List.take_take,
    Nat.min_self, List.length_take]
  by_cases h : a.data.length ≤ room
  · rw [Nat.min_eq_right h]
  · have h1 : room - min room a.data.length = 0 := by omega
    have h2 : room - a.data.length = 0 := by omega
    rw [h1, h2]

theorem truncate_of_le (room : Nat) (s : String) (h : s.length ≤ room) : truncate room s = s := by
  unfold truncate
  apply String.ext
  exact List.take_of_length_le h

theorem fprintf_snd (room : Nat) (fp text : String) :
    (fprintf room fp text).2 = truncate room (fp ++ text) := rfl

/-- The loop on a device with limited room leaves the cut of what the loop hands to the
    stream. -/
theorem write_entries_on_truncate (room : Nat) (messages : List message) (fp : String) :
    write_entries_on room messages (truncate room fp) =
      truncate room (write_entries messages fp) := by
  induction messages generalizing fp with
  | nil => rfl
  | cons m rest ih =>
    unfold write_entries_on write_entries
    cases m.code_text with
    | none => rfl
    | some text =>
      simp only []
      rw [fprintf_snd, truncate_append, ih]

/-- With a stream, the run returns 0 and leaves the cut of the text `main` hands to the
    stream. -/
theorem run_main_some (room : Nat) (messages : List message) (text : String)
    (h : main true messages = some (0, text)) :
    run_main (some room) messages = outcome.exited 0 (truncate room text) := by
  unfold main at h
  simp only [if_true, String.empty_append, Option.some.injEq, Prod.mk.injEq, true_and] at h
  unfold run_main
  simp only [fprintf_snd, String.empty_append]
  rw [truncate_append, write_entries_on_truncate, truncate_append, h]

set_option maxRecDepth 100000 in
/-- C11 (counterexample). On a device with room for 10 characters `fopen` returns a stream
    and the run on the table holding the record (999, `Hello`) ends with exit status 0,
    although the file holds only the first 10 characters of the text: the exit status is
    0 without the file having been written. -/
theorem C11_exit_zero_with_truncated_file :
    ¬ (exit_status (run_main (some 10) (table_of [(999, "Hello")])) = 0 ↔
        file_of (run_main (some 10) (table_of [(999, "Hello")])) =
          some (license_block ++ package_block ++ "\t999: \"Hello\\n\",\n" ++ "\x7d\n")) := by
  decide

/-- C11 (amended). The exit status is 0 exactly when `fopen` returned a stream. The values
    returned by `fprintf` and `fclose` are discarded: with a stream the run returns 0 and
    leaves the part of the text the device had room for, the whole text when there is
    room for it. With no stream the process is ended by a signal at the first `fprintf`:
    the exit status is not 0 and no file is written. -/
theorem C11_exit_status_ignores_writes (fopen_result : Option Nat) (room : Nat)
    (records : List (Int × String)) :
    (exit_status (run_main fopen_result (table_of records)) = 0 ↔ fopen_result ≠ none) ∧
    run_main (some room) (table_of records) =
      outcome.exited 0 (truncate room (license_block ++ package_block ++
        String.join (records.map (fun r => entry_line r.1 r.2)) ++ "\x7d\n")) ∧
    ((license_block ++ package_block ++
        String.join (records.map (fun r => entry_line r.1 r.2)) ++ "\x7d\n").length ≤ room →
      run_main (some room) (table_of records) =
        outcome.exited 0 (license_block ++ package_block ++
          String.join (records.map (fun r => entry_line r.1 r.2)) ++ "\x7d\n")) ∧
    exit_status (run_main none (table_of records)) ≠ 0 ∧
    file_of (run_main none (table_of records)) = none := by
  have hs : ∀ r : Nat, run_main (some r) (table_of records) =
      outcome.exited 0 (truncate r (license_block ++ package_block ++
        String.join (records.map (fun r => entry_line r.1 r.2)) ++ "\x7d\n")) :=
    fun r => run_main_some r _ _ (main_table_of records)
  have hk : exit_status (run_main none (table_of records)) ≠ 0 := by
    show (128 : Int) + ((11 : Nat) : Int) ≠ 0
    decide
  refine ⟨?_, hs room, ?_, hk, rfl⟩
  · cases fopen_result with
    | none => simp [run_main, exit_status]
    | some r => rw [hs r]; simp [exit_status]
  · intro hlen
    rw [hs room, truncate_of_le room _ hlen]

end Errmsgs

namespace Msgs

/-! ## The value returned by `make_isc_code` -/

/-- The returned value is the packing of the masked facility with the unmasked raw code. -/
theorem make_isc_code_eq_unmasked (w : Nat) (hw : 32 ≤ w) (f c : Int) :
    make_isc_code w f c = unmasked_isc_code f c := by
  have key : ∀ i, i < 32 →
      Int.testBit (Int.lor (Int.lor
          (to_signed w (to_signed w (to_unsigned 16 (Int.land (to_unsigned 16 f) 0x1F)) <<< (16 : Int)))
          (to_signed w c)) (to_signed w 0x14000000)) i =
        Int.testBit (Int.lor (Int.lor (Int.land f 0x1F <<< (16 : Int)) c) 0x14000000) i := by
    intro i hi
    have h := testBit_make_isc_code w hw f c i hi
    unfold make_isc_code at h
    simp only [] at h
    rw [testBit_to_signed 32 _ i hi] at h
    rw [h, Int.testBit_lor, Int.testBit_lor, testBit_isc_mask, testBit_shiftLeft_16,
      Int.testBit_land, testBit_mask_1F]
    by_cases h16 : 16 ≤ i
    · by_cases h21 : i < 21
      · have b : i - 16 < 5 := by omega
        simp [h16, h21, b]
      · have b : ¬ (i - 16 < 5) := by omega
        simp [h16, h21, b]
    · simp [h16]
  unfold unmasked_isc_code
  unfold make_isc_code
  exact to_signed_congr 32 _ _ key

theorem to_signed_32_of_range (x : Int) (h0 : -2147483648 ≤ x) (h1 : x < 2147483648) :
    to_signed 32 x = x := by
  unfold to_signed
  norm_num
  omega

theorem nat_pack_in_range (a b : Nat) (ha : a ≤ 31) (hb : b ≤ 16383) :
    ((a &&& 31) <<< 16 ||| b) ||| 335544320 = 335544320 + 65536 * a + b := by
  have e1 : a &&& 31 = a := by
    have := Nat.and_pow_two_sub_one_eq_mod a 5
    norm_num at this
    rw [this]
    omega
  have e2 : a <<< 16 ||| b = 2 ^ 16 * a + b := by
    rw [Nat.shiftLeft_eq, Nat.mul_comm, Nat.mul_add_lt_is_or (by norm_num; omega)]
  have e3 : (335544320 : Nat) = 2 ^ 26 * 5 := by norm_num
  rw [e1, e2, Nat.or_comm, e3, ← Nat.mul_add_lt_is_or (by norm_num; omega)]
  norm_num
  omega

/-- For a facility in [0, 31] and a raw code in [0, 0x3FFF] the three fields are disjoint
    and the OR is a sum. -/
theorem lor_pack_in_range (f c : Int) (hf0 : 0 ≤ f) (hf1 : f ≤ 31) (hc0 : 0 ≤ c)
    (hc1 : c ≤ 0x3FFF) :
    Int.lor (Int.lor (Int.land f 0x1F <<< (16 : Int)) c) 0x14000000 =
      0x14000000 + 65536 * f + c := by
  obtain ⟨a, rfl⟩ := Int.eq_ofNat_of_zero_le hf0
  obtain ⟨b, rfl⟩ := Int.eq_ofNat_of_zero_le hc0
  have ha : a ≤ 31 := by exact_mod_cast hf1
  have hb : b ≤ 16383 := by exact_mod_cast hc1
  have e1 : Int.land (a : Int) 0x1F = ((a &&& 31 : Nat) : Int) := rfl
  have e2 : ((a &&& 31 : Nat) : Int) <<< (16 : Int) = (((a &&& 31) <<< 16 : Nat) : Int) := by
    have h := Int.shiftLeft_coe_nat (a &&& 31) 16
    exact_mod_cast h
  have e3 : Int.lor (((a &&& 31) <<< 16 : Nat) : Int) (b : Int) =
      ((((a &&& 31) <<< 16) ||| b : Nat) : Int) := rfl
  have e4 : Int.lor ((((a &&& 31) <<< 16) ||| b : Nat) : Int) 0x14000000 =
      (((((a &&& 31) <<< 16) ||| b) ||| 335544320 : Nat) : Int) := rfl
  rw [e1, e2, e3, e4, nat_pack_in_range a b ha hb]
  push_cast
  ring

theorem make_isc_code_in_range (w : Nat) (hw : 32 ≤ w) (f c : Int) (hf0 : 0 ≤ f) (hf1 : f ≤ 31)
    (hc0 : 0 ≤ c) (hc1 : c ≤ 0x3FFF) :
    make_isc_code w f c = 0x14000000 + 65536 * f + c := by
  rw [make_isc_code_eq_unmasked w hw]
  unfold unmasked_isc_code
  rw [lor_pack_in_range f c hf0 hf1 hc0 hc1]
  apply to_signed_32_of_range <;> omega

theorem land_3FFF_in_range (c : Int) (hc0 : 0 ≤ c) (hc1 : c ≤ 0x3FFF) : Int.land c 0x3FFF = c := by
  apply int_eq_of_testBit_eq
  intro i
  rw [Int.testBit_land, testBit_mask_3FFF]
  by_cases hi : i < 14
  · simp [hi]
  · rw [testBit_eq_false_of_lt c 14 i hc0 (by norm_num; omega) (by omega)]
    simp

end Msgs

namespace Msgs

theorem land_1F_in_range (f : Int) (hf0 : 0 ≤ f) (hf1 : f ≤ 31) : Int.land f 0x1F = f := by
  apply int_eq_of_testBit_eq
  intro i
  rw [Int.testBit_land, testBit_mask_1F]
  by_cases hi : i < 5
  · simp [hi]
  · rw [testBit_eq_false_of_lt f 5 i hf0 (by norm_num; omega) (by omega)]
    simp

theorem land_1F_idem (f : Int) : Int.land (Int.land f 0x1F) 0x1F = Int.land f 0x1F := by
  apply int_eq_of_testBit_eq
  intro i
  rw [Int.testBit_land, Int.testBit_land, testBit_mask_1F]
  cases Int.testBit f i <;> cases decide (i < 5) <;> rfl

/-! ## Further claims about `make_isc_code` -/

/-- C12. The statement `code &= 0x3FFF` has no effect on the result: for every facility and
    raw code (and every pointer width of at least 32 bits) the function returns
    `((facility & 0x1F) << 16) | rawCode | 0x14000000` with the raw code unmasked, narrowed
    to the 32-bit result; at facility 0 and raw code 0x4000 that value is 0x14004000 and
    differs from 0x14000000, the packing of the masked raw code. -/
theorem C12_late_mask_has_no_effect (w : Nat) (facility rawCode : Int) (hw : 32 ≤ w) :
    make_isc_code w facility rawCode = unmasked_isc_code facility rawCode ∧
    make_isc_code w 0 0x4000 = 0x14004000 ∧
    documented_isc_code 0 0x4000 = 0x14000000 ∧
    make_isc_code w 0 0x4000 ≠ documented_isc_code 0 0x4000 := by
  have e : make_isc_code w 0 0x4000 = 0x14004000 := by
    rw [make_isc_code_eq_unmasked w hw]
    decide
  have d : documented_isc_code 0 0x4000 = 0x14000000 := by decide
  refine ⟨make_isc_code_eq_unmasked w hw facility rawCode, e, d, ?_⟩
  rw [e, d]
  decide

/-- C12 (witness). Pointer width 64, facility 40, raw code -3. -/
theorem C12_late_mask_has_no_effect_witness :
    32 ≤ 64 ∧
    (make_isc_code 64 40 (-3) = unmasked_isc_code 40 (-3) ∧
     make_isc_code 64 0 0x4000 = 0x14004000 ∧
     documented_isc_code 0 0x4000 = 0x14000000 ∧
     make_isc_code 64 0 0x4000 ≠ documented_isc_code 0 0x4000) :=
  ⟨by decide, C12_late_mask_has_no_effect 64 40 (-3) (by decide)⟩

/-- C13. Out-of-range facilities are truncated by masking, whatever the raw code: for every
    integer facility and raw code (and every pointer width of at least 32 bits) the result
    is the one obtained for the facility masked to 5 bits. -/
theorem C13_facility_truncated (w : Nat) (facility rawCode : Int) (hw : 32 ≤ w) :
    make_isc_code w facility rawCode = make_isc_code w (Int.land facility 0x1F) rawCode := by
  rw [make_isc_code_eq_unmasked w hw, make_isc_code_eq_unmasked w hw]
  unfold unmasked_isc_code
  rw [land_1F_idem]

/-- C13 (witness). Pointer width 64, facility -1 (masked: 31), raw code 7. -/
theorem C13_facility_truncated_witness :
    32 ≤ 64 ∧ make_isc_code 64 (-1) 7 = make_isc_code 64 (Int.land (-1) 0x1F) 7 :=
  ⟨by decide, C13_facility_truncated 64 (-1) 7 (by decide)⟩

/-- C14. For a facility in [0, 31] and a raw code in [0, 0x3FFF] the three fields do not
    overlap (their OR is their sum), the result is 0x14000000 + 65536 * facility + rawCode,
    it lies in [0x14000000, 0x141F3FFF], below 2^31 so nothing wraps, and it equals the
    documented formula. -/
theorem C14_fields_disjoint (w : Nat) (facility rawCode : Int) (hw : 32 ≤ w)
    (hf0 : 0 ≤ facility) (hf1 : facility ≤ 31) (hc0 : 0 ≤ rawCode) (hc1 : rawCode ≤ 0x3FFF) :
    Int.lor (Int.lor (facility <<< (16 : Int)) rawCode) 0x14000000 =
      0x14000000 + 65536 * facility + rawCode ∧
    make_isc_code w facility rawCode = 0x14000000 + 65536 * facility + rawCode ∧
    0x14000000 ≤ make_isc_code w facility rawCode ∧
    make_isc_code w facility rawCode ≤ 0x141F3FFF ∧
    make_isc_code w facility rawCode < 2 ^ 31 ∧
    make_isc_code w facility rawCode = documented_isc_code facility rawCode := by
  have v := make_isc_code_in_range w hw facility rawCode hf0 hf1 hc0 hc1
  have p := lor_pack_in_range facility rawCode hf0 hf1 hc0 hc1
  refine ⟨?_, v, ?_, ?_, ?_, ?_⟩
  · rw [land_1F_in_range facility hf0 hf1] at p
    exact p
  · rw [v]; omega
  · rw [v]; omega
  · rw [v]; norm_num; omega
  · unfold documented_isc_code
    rw [land_3FFF_in_range rawCode hc0 hc1, p, v]

/-- C14 (witness). Pointer width 64, facility 3, raw code 5: the result is 0x14030005. -/
theorem C14_fields_disjoint_witness :
    (32 ≤ 64 ∧ (0 : Int) ≤ 3 ∧ (3 : Int) ≤ 31 ∧ (0 : Int) ≤ 5 ∧ (5 : Int) ≤ 0x3FFF) ∧
    (Int.lor (Int.lor ((3 : Int) <<< (16 : Int)) 5) 0x14000000 = 0x14000000 + 65536 * 3 + 5 ∧
     make_isc_code 64 3 5 = 0x14000000 + 65536 * 3 + 5 ∧
     0x14000000 ≤ make_isc_code 64 3 5 ∧
     make_isc_code 64 3 5 ≤ 0x141F3FFF ∧
     make_isc_code 64 3 5 < 2 ^ 31 ∧
     make_isc_code 64 3 5 = documented_isc_code 3 5) :=
  ⟨by decide, C14_fields_disjoint 64 3 5 (by decide) (by decide) (by decide) (by decide)
    (by decide)⟩

/-- C15. On the valid ranges `make_isc_code` is injective: two facilities in [0, 31] and two
    raw codes in [0, 0x3FFF] that give the same result are equal pairwise. -/
theorem C15_injective_on_valid_ranges (w : Nat) (f1 c1 f2 c2 : Int) (hw : 32 ≤ w)
    (hf1 : 0 ≤ f1 ∧ f1 ≤ 31) (hc1 : 0 ≤ c1 ∧ c1 ≤ 0x3FFF)
    (hf2 : 0 ≤ f2 ∧ f2 ≤ 31) (hc2 : 0 ≤ c2 ∧ c2 ≤ 0x3FFF)
    (h : make_isc_code w f1 c1 = make_isc_code w f2 c2) : f1 = f2 ∧ c1 = c2 := by
  rw [make_isc_code_in_range w hw f1 c1 hf1.1 hf1.2 hc1.1 hc1.2,
    make_isc_code_in_range w hw f2 c2 hf2.1 hf2.2 hc2.1 hc2.2] at h
  obtain ⟨a1, a2⟩ := hf1
  obtain ⟨b1, b2⟩ := hc1
  obtain ⟨a3, a4⟩ := hf2
  obtain ⟨b3, b4⟩ := hc2
  constructor <;> omega

/-- C15 (witness). Pointer width 64, the pair (3, 5) on both sides. -/
theorem C15_injective_on_valid_ranges_witness :
    (32 ≤ 64 ∧ ((0 : Int) ≤ 3 ∧ (3 : Int) ≤ 31) ∧ ((0 : Int) ≤ 5 ∧ (5 : Int) ≤ 0x3FFF) ∧
      make_isc_code 64 3 5 = make_isc_code 64 3 5) ∧
    ((3 : Int) = 3 ∧ (5 : Int) = 5) :=
  ⟨by decide, C15_injective_on_valid_ranges 64 3 5 3 5 (by decide) (by decide) (by decide)
    (by decide) (by decide) rfl⟩

end Msgs
